import Mathlib

/-!
# Concurrent traffic simulation: message queue and traffic light

A shallow embedding of `src/TrafficLight.cpp`.

* The container `_queue` is a list whose head is the front and whose last
  element is the back.  `back` and `pop_back` are partial (they are undefined
  on an empty container), so they return an `Option`.
* `MessageQueue.send` and `MessageQueue.receive` are the critical sections of
  the two member functions, executed atomically (each runs under the mutex
  `mtx`).  A `receive` whose wait predicate is false does not return; this is
  the result `ReceiveResult.blocked`.
* The clock readings and the random draws of `cycleThroughPhases` are inputs
  of each loop iteration, as integers in one common unit of time.  The calls of
  `sleep_for` change no data and are left out.
* `waitForGreen` is an unbounded loop; its embedding takes a bound on the
  number of iterations and says so (`WaitResult.unfinished`) when the bound is
  reached.
* `Threads` runs `send` and `receive` statement by statement for any number of
  threads, with the mutex and the condition variable; it is used to show that
  the accesses to the container exclude each other, which is what allows the
  atomic reading of `send` and `receive` above.
-/

set_option linter.dupNamespace false

namespace TrafficSim

/-! ## Data model -/

/-- Modelled from the spec: the enumeration `TrafficLightPhase` declared in
`TrafficLight.h` (not part of the sources at hand); the code uses its two values
`red` and `green`. -/
inductive TrafficLightPhase where
  | red
  | green
  deriving DecidableEq, Repr

/-- Modelled from the spec: the class `MessageQueue<T>` declared in
`TrafficLight.h`; its data member `_queue` is an ordered sequence, the mutex
and the condition variable carry no data. -/
structure MessageQueue (T : Type) where
  _queue : List T
  deriving DecidableEq, Repr

/-- Modelled from the spec: the class `TrafficLight` declared in
`TrafficLight.h`, with the members `_currentPhase` and `_trafficMessage`
used by the code. -/
structure TrafficLight where
  _currentPhase : TrafficLightPhase
  _trafficMessage : MessageQueue TrafficLightPhase
  deriving DecidableEq, Repr

/-! ## Container operations used by the queue -/

section Container

variable {T : Type}

/-- The test `_queue.empty()`. -/
def empty (d : List T) : Bool :=
  match d with
  | [] => true
  | _ :: _ => false

/-- The call `_queue.back()`: the last element; undefined on an empty container. -/
def back : List T → Option T
  | [] => none
  | [x] => some x
  | _ :: y :: ys => back (y :: ys)

/-- The call `_queue.pop_back()`: removes the last element; undefined on an
empty container. -/
def pop_back : List T → Option (List T)
  | [] => none
  | [_] => some []
  | x :: y :: ys => (pop_back (y :: ys)).map (fun r => x :: r)

/-- The call `_queue.push_back(x)`: appends at the back. -/
def push_back (d : List T) (x : T) : List T :=
  d ++ [x]

end Container

/-! ## MessageQueue -/

/-- What a call of `receive` does: it stays in `_condition.wait`, it returns a
message, or it applies `back`/`pop_back` to an empty container. -/
inductive ReceiveResult (T : Type) where
  | blocked (q : MessageQueue T)
  | returned (msg : T) (q : MessageQueue T)
  | undefinedBehaviour
  deriving DecidableEq, Repr

namespace MessageQueue

variable {T : Type}

/-- `MessageQueue<T>::send`: under the lock, `_queue.push_back(std::move(msg))`. -/
def send (q : MessageQueue T) (msg : T) : MessageQueue T :=
  { _queue := push_back q._queue msg }

/-- `MessageQueue<T>::receive`: waits until `!_queue.empty()`, then takes
`_queue.back()`, calls `_queue.pop_back()` and returns the message. -/
def receive (q : MessageQueue T) : ReceiveResult T :=
  if empty q._queue then
    ReceiveResult.blocked q
  else
    match back q._queue with
    | none => ReceiveResult.undefinedBehaviour
    | some msg =>
      match pop_back q._queue with
      | none => ReceiveResult.undefinedBehaviour
      | some rest => ReceiveResult.returned msg { _queue := rest }

end MessageQueue

/-! ## Sequences of queue operations -/

section Runs

variable {T : Type}

/-- Sends the values of a list, in order. -/
def sendAll (q : MessageQueue T) : List T → MessageQueue T
  | [] => q
  | v :: vs => sendAll (q.send v) vs

/-- Calls `receive` `n` times in a row; `none` when one of the calls does not
return.  The result lists the returned messages in the order of the calls. -/
def receiveMany : Nat → MessageQueue T → Option (List T × MessageQueue T)
  | 0, q => some ([], q)
  | n + 1, q =>
    match q.receive with
    | ReceiveResult.returned msg q' =>
      (receiveMany n q').map (fun r => (msg :: r.1, r.2))
    | _ => none

/-- One operation of a client of the queue. -/
inductive QueueOp (T : Type) where
  | send (v : T)
  | receive
  deriving DecidableEq, Repr

/-- A queue together with the record of what was sent and what the calls of
`receive` returned so far (both in order of occurrence). -/
structure Run (T : Type) where
  queue : MessageQueue T
  sent : List T
  received : List T
  deriving DecidableEq, Repr

/-- The start of a run: an empty queue, nothing sent, nothing received. -/
def Run.start : Run T :=
  { queue := { _queue := [] }, sent := [], received := [] }

/-- Performs one operation.  A `receive` that finds the queue empty stays
blocked and changes nothing. -/
def Run.step (r : Run T) : QueueOp T → Run T
  | QueueOp.send v => { r with queue := r.queue.send v, sent := r.sent ++ [v] }
  | QueueOp.receive =>
    match r.queue.receive with
    | ReceiveResult.returned msg q' => { r with queue := q', received := r.received ++ [msg] }
    | _ => r

/-- Performs a list of operations, in order. -/
def Run.exec (r : Run T) : List (QueueOp T) → Run T
  | [] => r
  | op :: ops => Run.exec (r.step op) ops

end Runs

/-! ## TrafficLight -/

/-- What a call of `waitForGreen` does within a bounded number of loop
iterations: it returns, it stays blocked in a `receive`, it runs into undefined
behaviour, or it is still looping when the bound is reached.  `received` lists
the messages its calls of `receive` returned, in order. -/
inductive WaitResult where
  | returned (received : List TrafficLightPhase) (tl : TrafficLight)
  | blocked (received : List TrafficLightPhase) (tl : TrafficLight)
  | undefinedBehaviour
  | unfinished (received : List TrafficLightPhase) (tl : TrafficLight)
  deriving DecidableEq, Repr

/-- Puts a message in front of the record of a result. -/
def WaitResult.record (p : TrafficLightPhase) : WaitResult → WaitResult
  | WaitResult.returned ps tl => WaitResult.returned (p :: ps) tl
  | WaitResult.blocked ps tl => WaitResult.blocked (p :: ps) tl
  | WaitResult.undefinedBehaviour => WaitResult.undefinedBehaviour
  | WaitResult.unfinished ps tl => WaitResult.unfinished (p :: ps) tl

/-- `TrafficLight::waitForGreen`: the loop `while (true)` that calls
`_trafficMessage.receive()` and returns once the message is `green`.  The first
argument bounds the number of iterations. -/
def TrafficLight.waitForGreen : Nat → TrafficLight → WaitResult
  | 0, tl => WaitResult.unfinished [] tl
  | fuel + 1, tl =>
    match tl._trafficMessage.receive with
    | ReceiveResult.blocked q => WaitResult.blocked [] { tl with _trafficMessage := q }
    | ReceiveResult.undefinedBehaviour => WaitResult.undefinedBehaviour
    | ReceiveResult.returned received_msg q =>
      if received_msg = TrafficLightPhase.green then
        WaitResult.returned [received_msg] { tl with _trafficMessage := q }
      else
        (TrafficLight.waitForGreen fuel { tl with _trafficMessage := q }).record received_msg

/-- `TrafficLight::getCurrentPhase`. -/
def TrafficLight.getCurrentPhase (tl : TrafficLight) : TrafficLightPhase :=
  tl._currentPhase

/-- The local variables of `cycleThroughPhases` together with the object. -/
structure CycleState where
  light : TrafficLight
  start : Int
  cycle_time : Int
  deriving DecidableEq, Repr

/-- What one iteration of the loop of `cycleThroughPhases` reads from outside:
the clock at the top of the iteration, the clock when the timer is reset, and
the value drawn from `dist(eng)`. -/
structure CycleInput where
  now : Int
  now_reset : Int
  draw : Int
  deriving DecidableEq, Repr

/-- The test `duration.count() >= cycle_time`. -/
def CycleState.expired (s : CycleState) (i : CycleInput) : Bool :=
  decide (s.cycle_time ≤ i.now - s.start)

/-- One iteration of the loop of `cycleThroughPhases`.  The second component
is the message passed to `_trafficMessage.send`, if the iteration sends one
(`std::move` of an enumeration value leaves `_currentPhase` as it is). -/
def CycleState.iteration (s : CycleState) (i : CycleInput) :
    CycleState × Option TrafficLightPhase :=
  if s.expired i then
    let _currentPhase :=
      if s.light._currentPhase = TrafficLightPhase.green then TrafficLightPhase.red
      else TrafficLightPhase.green
    ({ light := { _currentPhase := _currentPhase,
                  _trafficMessage := s.light._trafficMessage.send _currentPhase },
       start := i.now_reset,
       cycle_time := i.draw }, some _currentPhase)
  else
    (s, none)

/-- `TrafficLight::cycleThroughPhases`, for the iterations whose inputs are
listed: the first draw and the first clock reading, then the loop. -/
def TrafficLight.cycleThroughPhases (tl : TrafficLight) (draw start : Int) :
    List CycleInput → CycleState
  | [] => { light := tl, start := start, cycle_time := draw }
  | i :: is =>
    let s : CycleState := { light := tl, start := start, cycle_time := draw }
    let s' := (s.iteration i).1
    TrafficLight.cycleThroughPhases s'.light s'.cycle_time s'.start is

/-- `TrafficLight::TrafficLight`: the phase is `red`; the queue member is
default-constructed, hence empty. -/
def TrafficLight.TrafficLight : TrafficLight :=
  { _currentPhase := TrafficLightPhase.red, _trafficMessage := { _queue := [] } }

/-! ## The controller with its waiters -/

/-- A step of the whole system: an iteration of the toggle loop, or a call of
`receive` made by some waiter. -/
inductive Action where
  | iteration (i : CycleInput)
  | receive
  deriving DecidableEq, Repr

/-- The toggle loop's state with the record of the published messages and of
the messages returned to waiters. -/
structure Sim where
  loop : CycleState
  published : List TrafficLightPhase
  received : List TrafficLightPhase
  deriving DecidableEq, Repr

/-- The system when the toggle loop is in state `s` and nothing is recorded. -/
def Sim.init (s : CycleState) : Sim :=
  { loop := s, published := [], received := [] }

/-- Performs one action. -/
def Sim.step (r : Sim) : Action → Sim
  | Action.iteration i =>
    match r.loop.iteration i with
    | (s, some p) => { r with loop := s, published := r.published ++ [p] }
    | (s, none) => { r with loop := s }
  | Action.receive =>
    match r.loop.light._trafficMessage.receive with
    | ReceiveResult.returned msg q =>
      { r with loop := { r.loop with light := { r.loop.light with _trafficMessage := q } },
               received := r.received ++ [msg] }
    | _ => r

/-- Performs a list of actions, in order. -/
def Sim.exec (r : Sim) : List Action → Sim
  | [] => r
  | a :: as => Sim.exec (r.step a) as

/-! ## Threads inside `send` and `receive`

The two member functions statement by statement, for any number of threads.
The mutex `mtx` is free or owned by one thread; constructing the
`std::unique_lock` or the `std::lock_guard` takes it when it is free and waits
otherwise; `_condition.wait(lck, pred)` evaluates the predicate while holding
the mutex, and when it is false gives the mutex up and waits until it is woken
(by a notification or spuriously), takes the mutex again and re-evaluates. -/

/-- The statement of `receive` or `send` a thread is about to execute.
`idle`: not inside a call.  `receiveLock`: line 14, before the mutex is taken.
`receiveCheck`: line 16, evaluating `!_queue.empty()`.  `receiveWaiting`: line
16, inside the wait, the mutex given up.  `receiveRelock`: line 16, woken,
taking the mutex again.  `receiveBack`: line 19.  `receivePop`: line 21.
`receiveReturn`: line 23, the return and the release of the mutex.  `sendLock`:
line 33.  `sendPush`: line 36.  `sendNotify`: line 37.  `sendUnlock`: line 38,
the release of the mutex at the end of the scope.  `undefinedBehaviour`: after
`back` or `pop_back` on an empty container. -/
inductive Pc (T : Type) where
  | idle
  | receiveLock
  | receiveCheck
  | receiveWaiting
  | receiveRelock
  | receiveBack
  | receivePop (msg : T)
  | receiveReturn (msg : T)
  | sendLock (msg : T)
  | sendPush (msg : T)
  | sendNotify
  | sendUnlock
  | undefinedBehaviour
  deriving DecidableEq, Repr

/-- The statements that lie, in the program text, after the mutex is taken and
before it is given up again. -/
def Pc.inCriticalSection {T : Type} : Pc T → Bool
  | Pc.idle => false
  | Pc.receiveLock => false
  | Pc.receiveCheck => true
  | Pc.receiveWaiting => false
  | Pc.receiveRelock => false
  | Pc.receiveBack => true
  | Pc.receivePop _ => true
  | Pc.receiveReturn _ => true
  | Pc.sendLock _ => false
  | Pc.sendPush _ => true
  | Pc.sendNotify => true
  | Pc.sendUnlock => true
  | Pc.undefinedBehaviour => true

/-- The statements that apply `back` or `pop_back`. -/
def Pc.usesBack {T : Type} : Pc T → Bool
  | Pc.receiveBack => true
  | Pc.receivePop _ => true
  | _ => false

/-- What the scheduler lets a thread do next: enter `send` or `receive`,
execute its current statement, execute `notify_one` waking the given thread if
it waits, or wake up from the wait. -/
inductive Move (T : Type) where
  | callSend (msg : T)
  | callReceive
  | run
  | notify (waiter : Nat)
  | wake
  deriving DecidableEq, Repr

/-- The queue shared by the threads: its container, the owner of its mutex,
and where each thread stands. -/
structure Threads (T : Type) where
  _queue : List T
  mtx : Option Nat
  pcs : Nat → Pc T

/-- Thread `t` moves on to statement `pc`. -/
def Threads.goto {T : Type} (s : Threads T) (t : Nat) (pc : Pc T) : Threads T :=
  { s with pcs := Function.update s.pcs t pc }

/-- One step of thread `t`.  A move that does not fit the thread's statement,
and an attempt to take a mutex that is not free, leave the state as it is. -/
def Threads.step {T : Type} (s : Threads T) (t : Nat) (m : Move T) : Threads T :=
  match s.pcs t, m with
  | Pc.idle, Move.callSend msg => s.goto t (Pc.sendLock msg)
  | Pc.idle, Move.callReceive => s.goto t Pc.receiveLock
  | Pc.receiveLock, Move.run =>
    if s.mtx = none then { s with mtx := some t }.goto t Pc.receiveCheck else s
  | Pc.receiveCheck, Move.run =>
    if !empty s._queue then s.goto t Pc.receiveBack
    else { s with mtx := none }.goto t Pc.receiveWaiting
  | Pc.receiveWaiting, Move.wake => s.goto t Pc.receiveRelock
  | Pc.receiveRelock, Move.run =>
    if s.mtx = none then { s with mtx := some t }.goto t Pc.receiveCheck else s
  | Pc.receiveBack, Move.run =>
    match back s._queue with
    | none => s.goto t Pc.undefinedBehaviour
    | some msg => s.goto t (Pc.receivePop msg)
  | Pc.receivePop msg, Move.run =>
    match pop_back s._queue with
    | none => s.goto t Pc.undefinedBehaviour
    | some rest => { s with _queue := rest }.goto t (Pc.receiveReturn msg)
  | Pc.receiveReturn _, Move.run => { s with mtx := none }.goto t Pc.idle
  | Pc.sendLock msg, Move.run =>
    if s.mtx = none then { s with mtx := some t }.goto t (Pc.sendPush msg) else s
  | Pc.sendPush msg, Move.run =>
    { s with _queue := push_back s._queue msg }.goto t Pc.sendNotify
  | Pc.sendNotify, Move.notify waiter =>
    match s.pcs waiter with
    | Pc.receiveWaiting => (s.goto waiter Pc.receiveRelock).goto t Pc.sendUnlock
    | _ => s.goto t Pc.sendUnlock
  | Pc.sendUnlock, Move.run => { s with mtx := none }.goto t Pc.idle
  | _, _ => s

/-- The start: the container holds `q`, the mutex is free, no thread is inside
a call. -/
def Threads.init {T : Type} (q : List T) : Threads T :=
  { _queue := q, mtx := none, pcs := fun _ => Pc.idle }

/-- Runs a schedule: a list of thread numbers with the move each one makes. -/
def Threads.exec {T : Type} (s : Threads T) : List (Nat × Move T) → Threads T
  | [] => s
  | (t, m) :: rest => Threads.exec (s.step t m) rest

/-! ## Basic facts about the container -/

section ContainerLemmas

variable {T : Type}

theorem back_append_singleton (xs : List T) (v : T) : back (xs ++ [v]) = some v := by
  induction xs with
  | nil => rfl
  | cons x xs ih =>
    cases xs with
    | nil => rfl
    | cons y ys => simpa [back] using ih

theorem pop_back_append_singleton (xs : List T) (v : T) :
    pop_back (xs ++ [v]) = some xs := by
  induction xs with
  | nil => rfl
  | cons x xs ih =>
    cases xs with
    | nil => rfl
    | cons y ys =>
      have h : pop_back (y :: (ys ++ [v])) = some (y :: ys) := by simpa using ih
      simp [pop_back, h]

theorem empty_append_singleton (xs : List T) (v : T) : empty (xs ++ [v]) = false := by
  cases xs <;> rfl

theorem receive_append_singleton (xs : List T) (v : T) :
    MessageQueue.receive { _queue := xs ++ [v] }
      = ReceiveResult.returned v { _queue := xs } := by
  simp [MessageQueue.receive, empty_append_singleton, back_append_singleton,
    pop_back_append_singleton]

theorem receive_nil : MessageQueue.receive ({ _queue := [] } : MessageQueue T)
    = ReceiveResult.blocked { _queue := [] } := rfl

theorem sendAll_queue (q : MessageQueue T) (vs : List T) :
    sendAll q vs = { _queue := q._queue ++ vs } := by
  induction vs generalizing q with
  | nil => simp [sendAll]
  | cons v vs ih => simp [sendAll, ih, MessageQueue.send, push_back]

theorem receiveMany_append_reverse (xs vs : List T) :
    receiveMany vs.length ({ _queue := xs ++ vs } : MessageQueue T)
      = some (vs.reverse, { _queue := xs }) := by
  induction vs using List.reverseRecOn with
  | nil => simp [receiveMany]
  | append_singleton vs v ih =>
    have h : xs ++ (vs ++ [v]) = (xs ++ vs) ++ [v] := by simp
    rw [h, List.length_append, List.length_singleton, receiveMany,
      receive_append_singleton]
    simp [ih]

theorem receive_ne_undefined (q : MessageQueue T) :
    q.receive ≠ ReceiveResult.undefinedBehaviour := by
  obtain ⟨l⟩ := q
  induction l using List.reverseRecOn with
  | nil => simp [receive_nil]
  | append_singleton xs v _ => simp [receive_append_singleton]

theorem receive_returned_iff (q : MessageQueue T) :
    (∃ msg q', q.receive = ReceiveResult.returned msg q') ↔ q._queue ≠ [] := by
  obtain ⟨l⟩ := q
  induction l using List.reverseRecOn with
  | nil => simp [receive_nil]
  | append_singleton xs v _ => simp [receive_append_singleton]

theorem receive_blocked_iff (q : MessageQueue T) :
    q.receive = ReceiveResult.blocked q ↔ q._queue = [] := by
  obtain ⟨l⟩ := q
  induction l using List.reverseRecOn with
  | nil => simp [receive_nil]
  | append_singleton xs v _ => simp [receive_append_singleton]

theorem run_step_perm (r : Run T) (op : QueueOp T) (base : List T)
    (h : List.Perm (r.received ++ r.queue._queue) (base ++ r.sent)) :
    List.Perm ((r.step op).received ++ (r.step op).queue._queue)
      (base ++ (r.step op).sent) := by
  obtain ⟨⟨l⟩, sent, received⟩ := r
  cases op with
  | send v =>
    simp only [Run.step, MessageQueue.send, push_back]
    rw [← List.append_assoc, ← List.append_assoc]
    exact List.Perm.append_right [v] h
  | receive =>
    induction l using List.reverseRecOn with
    | nil => simpa [Run.step, receive_nil] using h
    | append_singleton xs v _ =>
      simp only [Run.step, receive_append_singleton]
      have e : List.Perm (received ++ [v] ++ xs) (received ++ (xs ++ [v])) := by
        rw [List.append_assoc]
        exact List.Perm.append_left received List.perm_append_comm
      exact e.trans h

theorem run_exec_perm (r : Run T) (ops : List (QueueOp T)) (base : List T)
    (h : List.Perm (r.received ++ r.queue._queue) (base ++ r.sent)) :
    List.Perm ((r.exec ops).received ++ (r.exec ops).queue._queue)
      (base ++ (r.exec ops).sent) := by
  induction ops generalizing r with
  | nil => exact h
  | cons op ops ih => exact ih (r.step op) (run_step_perm r op base h)

end ContainerLemmas

/-! ## Basic facts about the controller -/

section SimLemmas

open TrafficLightPhase

theorem iteration_fst_eta (s : CycleState) (is : List CycleInput) :
    TrafficLight.cycleThroughPhases s.light s.cycle_time s.start is
      = match is with
        | [] => s
        | i :: is =>
          TrafficLight.cycleThroughPhases (s.iteration i).1.light
            (s.iteration i).1.cycle_time (s.iteration i).1.start is := by
  cases is <;> rfl

theorem sim_step_iteration_loop (r : Sim) (i : CycleInput) :
    (r.step (Action.iteration i)).loop = (r.loop.iteration i).1 := by
  simp only [Sim.step, CycleState.iteration]
  split_ifs <;> rfl

theorem sim_step_iteration_published (r : Sim) (i : CycleInput) :
    (r.step (Action.iteration i)).published
      = r.published ++ ((r.loop.iteration i).2).toList := by
  simp only [Sim.step, CycleState.iteration]
  split_ifs <;> simp

theorem sim_step_iteration_received (r : Sim) (i : CycleInput) :
    (r.step (Action.iteration i)).received = r.received := by
  simp only [Sim.step, CycleState.iteration]
  split_ifs <;> rfl

theorem iteration_queue (s : CycleState) (i : CycleInput) :
    (s.iteration i).1.light._trafficMessage._queue
      = s.light._trafficMessage._queue ++ ((s.iteration i).2).toList := by
  simp only [CycleState.iteration]
  split_ifs <;> simp [MessageQueue.send, push_back]

theorem iteration_phase (s : CycleState) (i : CycleInput) :
    ∀ p ∈ (s.iteration i).2,
      p ≠ s.light._currentPhase ∧ (s.iteration i).1.light._currentPhase = p := by
  intro p hp
  simp only [CycleState.iteration] at hp ⊢
  split_ifs at hp ⊢ with h1 h2
  · simp only [Option.mem_def, Option.some.injEq] at hp
    subst hp
    simp [h2]
  · simp only [Option.mem_def, Option.some.injEq] at hp
    subst hp
    exact ⟨fun e => h2 e.symm, rfl⟩
  · simp at hp

theorem iteration_phase_none (s : CycleState) (i : CycleInput)
    (h : (s.iteration i).2 = none) :
    (s.iteration i).1.light._currentPhase = s.light._currentPhase := by
  simp only [CycleState.iteration] at h ⊢
  split_ifs at h ⊢
  rfl

theorem sim_step_receive_published (r : Sim) :
    (r.step Action.receive).published = r.published
    ∧ (r.step Action.receive).loop.light._currentPhase = r.loop.light._currentPhase := by
  simp only [Sim.step]
  split <;> exact ⟨rfl, rfl⟩

theorem sim_step_alternates (p0 : TrafficLightPhase) (r : Sim) (a : Action)
    (h : List.Chain' (fun x y => x ≠ y) (p0 :: r.published)
      ∧ (p0 :: r.published).getLast? = some r.loop.light._currentPhase) :
    List.Chain' (fun x y => x ≠ y) (p0 :: (r.step a).published)
      ∧ (p0 :: (r.step a).published).getLast? = some (r.step a).loop.light._currentPhase := by
  cases a with
  | receive =>
    rw [(sim_step_receive_published r).1, (sim_step_receive_published r).2]
    exact h
  | iteration i =>
    rw [sim_step_iteration_published, sim_step_iteration_loop]
    cases hp : (r.loop.iteration i).2 with
    | none =>
      rw [iteration_phase_none r.loop i hp]
      simpa using h
    | some p =>
      obtain ⟨hne, hcur⟩ := iteration_phase r.loop i p (by simp [hp])
      rw [hcur]
      have e : p0 :: (r.published ++ (some p).toList) = (p0 :: r.published) ++ [p] := by
        simp
      rw [e]
      refine ⟨?_, List.getLast?_append_cons (p0 :: r.published) p []⟩
      rw [List.chain'_append]
      refine ⟨h.1, by simp, ?_⟩
      intro x hx y hy
      rw [h.2] at hx
      simp only [Option.mem_def, Option.some.injEq, List.head?_cons] at hx hy
      subst hx hy
      exact fun e => hne e.symm

theorem sim_exec_alternates (p0 : TrafficLightPhase) (r : Sim) (acts : List Action)
    (h : List.Chain' (fun x y => x ≠ y) (p0 :: r.published)
      ∧ (p0 :: r.published).getLast? = some r.loop.light._currentPhase) :
    List.Chain' (fun x y => x ≠ y) (p0 :: (r.exec acts).published)
      ∧ (p0 :: (r.exec acts).published).getLast?
          = some (r.exec acts).loop.light._currentPhase := by
  induction acts generalizing r with
  | nil => exact h
  | cons a acts ih => exact ih (r.step a) (sim_step_alternates p0 r a h)

theorem sim_step_perm (r : Sim) (a : Action) (base : List TrafficLightPhase)
    (h : List.Perm (r.received ++ r.loop.light._trafficMessage._queue)
      (base ++ r.published)) :
    List.Perm ((r.step a).received ++ (r.step a).loop.light._trafficMessage._queue)
      (base ++ (r.step a).published) := by
  cases a with
  | iteration i =>
    rw [sim_step_iteration_published, sim_step_iteration_loop, sim_step_iteration_received,
      iteration_queue, ← List.append_assoc, ← List.append_assoc]
    exact List.Perm.append_right _ h
  | receive =>
    obtain ⟨⟨⟨ph, ⟨l⟩⟩, st, ct⟩, pub, rcv⟩ := r
    induction l using List.reverseRecOn with
    | nil => simpa [Sim.step, receive_nil] using h
    | append_singleton xs v _ =>
      simp only [Sim.step, receive_append_singleton]
      have e : List.Perm (rcv ++ [v] ++ xs) (rcv ++ (xs ++ [v])) := by
        rw [List.append_assoc]
        exact List.Perm.append_left rcv List.perm_append_comm
      exact e.trans h

theorem sim_exec_perm (r : Sim) (acts : List Action) (base : List TrafficLightPhase)
    (h : List.Perm (r.received ++ r.loop.light._trafficMessage._queue)
      (base ++ r.published)) :
    List.Perm ((r.exec acts).received ++ (r.exec acts).loop.light._trafficMessage._queue)
      (base ++ (r.exec acts).published) := by
  induction acts generalizing r with
  | nil => exact h
  | cons a acts ih => exact ih (r.step a) (sim_step_perm r a base h)

theorem sim_exec_iterations (r : Sim) (is : List CycleInput) (base : List TrafficLightPhase)
    (h : r.loop.light._trafficMessage._queue = base ++ r.published) :
    (r.exec (is.map Action.iteration)).loop
        = TrafficLight.cycleThroughPhases r.loop.light r.loop.cycle_time r.loop.start is
    ∧ (r.exec (is.map Action.iteration)).loop.light._trafficMessage._queue
        = base ++ (r.exec (is.map Action.iteration)).published := by
  induction is generalizing r with
  | nil => exact ⟨rfl, h⟩
  | cons i is ih =>
    have h' : (r.step (Action.iteration i)).loop.light._trafficMessage._queue
        = base ++ (r.step (Action.iteration i)).published := by
      rw [sim_step_iteration_published, sim_step_iteration_loop, iteration_queue, h,
        List.append_assoc]
    have := ih (r.step (Action.iteration i)) h'
    rw [sim_step_iteration_loop] at this
    rw [iteration_fst_eta r.loop (i :: is)]
    exact this

theorem wait_unfold_append (fuel : Nat) (ph : TrafficLightPhase)
    (xs : List TrafficLightPhase) (v : TrafficLightPhase) :
    TrafficLight.waitForGreen (fuel + 1) { _currentPhase := ph, _trafficMessage := { _queue := xs ++ [v] } }
      = if v = green then
          WaitResult.returned [v] { _currentPhase := ph, _trafficMessage := { _queue := xs } }
        else
          (TrafficLight.waitForGreen fuel
            { _currentPhase := ph, _trafficMessage := { _queue := xs } }).record v := by
  simp only [TrafficLight.waitForGreen, receive_append_singleton]

theorem wait_unfold_nil (fuel : Nat) (ph : TrafficLightPhase) :
    TrafficLight.waitForGreen (fuel + 1) { _currentPhase := ph, _trafficMessage := { _queue := [] } }
      = WaitResult.blocked [] { _currentPhase := ph, _trafficMessage := { _queue := [] } } := by
  simp only [TrafficLight.waitForGreen, receive_nil]

theorem wait_green_then_reds (ph : TrafficLightPhase) (older : List TrafficLightPhase)
    (n fuel : Nat) (h : n < fuel) :
    TrafficLight.waitForGreen fuel
        { _currentPhase := ph,
          _trafficMessage := { _queue := older ++ green :: List.replicate n red } }
      = WaitResult.returned (List.replicate n red ++ [green])
          { _currentPhase := ph, _trafficMessage := { _queue := older } } := by
  induction n generalizing fuel with
  | zero =>
    obtain ⟨f, rfl⟩ : ∃ f, fuel = f + 1 := ⟨fuel - 1, by omega⟩
    simpa using wait_unfold_append f ph older green
  | succ n ih =>
    obtain ⟨f, rfl⟩ : ∃ f, fuel = f + 1 := ⟨fuel - 1, by omega⟩
    have e : older ++ green :: List.replicate (n + 1) red
        = (older ++ green :: List.replicate n red) ++ [red] := by
      rw [List.replicate_succ']
      simp
    rw [e, wait_unfold_append, ih f (by omega)]
    simp [WaitResult.record, List.replicate_succ]

theorem wait_all_red_blocks (ph : TrafficLightPhase) (m fuel : Nat) (h : m < fuel) :
    TrafficLight.waitForGreen fuel
        { _currentPhase := ph, _trafficMessage := { _queue := List.replicate m red } }
      = WaitResult.blocked (List.replicate m red)
          { _currentPhase := ph, _trafficMessage := { _queue := [] } } := by
  induction m generalizing fuel with
  | zero =>
    obtain ⟨f, rfl⟩ : ∃ f, fuel = f + 1 := ⟨fuel - 1, by omega⟩
    simpa using wait_unfold_nil f ph
  | succ m ih =>
    obtain ⟨f, rfl⟩ : ∃ f, fuel = f + 1 := ⟨fuel - 1, by omega⟩
    rw [List.replicate_succ', wait_unfold_append, ih f (by omega)]
    simp only [reduceCtorEq, if_false, WaitResult.record]
    rw [← List.replicate_succ', ← List.replicate_succ]

theorem record_returned (p : TrafficLightPhase) (w : WaitResult)
    (rcv : List TrafficLightPhase) (tl : TrafficLight)
    (h : w.record p = WaitResult.returned rcv tl) :
    ∃ rcv', w = WaitResult.returned rcv' tl := by
  cases w <;> simp [WaitResult.record] at h
  exact ⟨_, by rw [h.2]⟩

theorem wait_all_red_never_returns (ph : TrafficLightPhase) (m fuel : Nat)
    (rcv : List TrafficLightPhase) (tl : TrafficLight) :
    TrafficLight.waitForGreen fuel
        { _currentPhase := ph, _trafficMessage := { _queue := List.replicate m red } }
      ≠ WaitResult.returned rcv tl := by
  induction fuel generalizing m rcv with
  | zero => simp [TrafficLight.waitForGreen]
  | succ f ih =>
    cases m with
    | zero =>
      rw [List.replicate_zero, wait_unfold_nil]
      simp
    | succ m =>
      rw [List.replicate_succ', wait_unfold_append]
      simp only [reduceCtorEq, if_false]
      intro h
      obtain ⟨rcv', h'⟩ := record_returned _ _ _ _ h
      exact ih m rcv' h'

theorem green_mem_split (l : List TrafficLightPhase) (h : green ∈ l) :
    ∃ older n, l = older ++ green :: List.replicate n red := by
  induction l using List.reverseRecOn with
  | nil => simp at h
  | append_singleton xs v ih =>
    cases v with
    | green => exact ⟨xs, 0, rfl⟩
    | red =>
      have hx : green ∈ xs := by simpa using h
      obtain ⟨older, n, e⟩ := ih hx
      refine ⟨older, n + 1, ?_⟩
      rw [e, List.replicate_succ']
      simp

theorem no_green_all_red (l : List TrafficLightPhase) (h : green ∉ l) :
    l = List.replicate l.length red := by
  rw [List.eq_replicate_iff]
  refine ⟨rfl, ?_⟩
  intro p hp
  cases p with
  | red => rfl
  | green => exact absurd hp h

end SimLemmas

/-! ## Threads: invariants -/

section ThreadLemmas

variable {T : Type}

theorem goto_pcs (s : Threads T) (t : Nat) (pc : Pc T) (u : Nat) :
    (s.goto t pc).pcs u = if u = t then pc else s.pcs u := by
  simp [Threads.goto, Function.update_apply]

theorem goto_mtx (s : Threads T) (t : Nat) (pc : Pc T) : (s.goto t pc).mtx = s.mtx := rfl

theorem goto_queue (s : Threads T) (t : Nat) (pc : Pc T) : (s.goto t pc)._queue = s._queue := rfl

theorem step_inv (s : Threads T) (t : Nat) (m : Move T)
    (h1 : ∀ u, (s.pcs u).inCriticalSection = true ↔ s.mtx = some u) :
    (∀ u, ((s.step t m).pcs u).inCriticalSection = true ↔ (s.step t m).mtx = some u) := by
  intro u
  have h1t := h1 t
  have h1u := h1 u
  cases hpc : s.pcs t <;> cases m <;> simp only [Threads.step, hpc] <;> try exact h1u
  all_goals
    rw [hpc] at h1t
    simp only [Pc.inCriticalSection, Bool.false_eq_true, false_iff, true_iff] at h1t
    by_cases hut : u = t
    · subst hut
      (repeat' split) <;> simp [goto_pcs, goto_mtx, Pc.inCriticalSection, *]
    · have hut' : ¬ t = u := fun e => hut e.symm
      (repeat' split) <;> simp [goto_pcs, goto_mtx, hut, hut', h1u, *] <;> split_ifs <;>
        first
        | rfl
        | (cases hin : (s.pcs u).inCriticalSection
           · rfl
           · rw [h1u, h1t] at hin
             exact absurd (Option.some.inj hin) hut')

theorem usesBack_inCriticalSection (pc : Pc T) (h : pc.usesBack = true) :
    pc.inCriticalSection = true := by
  cases pc <;> simp_all [Pc.usesBack, Pc.inCriticalSection]

theorem back_eq_none (l : List T) : back l = none ↔ l = [] := by
  induction l with
  | nil => simp [back]
  | cons x xs ih =>
    cases xs with
    | nil => simp [back]
    | cons y ys => simpa [back] using ih

theorem pop_back_eq_none (l : List T) : pop_back l = none ↔ l = [] := by
  induction l with
  | nil => simp [pop_back]
  | cons x xs ih =>
    cases xs with
    | nil => simp [pop_back]
    | cons y ys => simpa [pop_back] using ih

theorem empty_eq_true (l : List T) : empty l = true ↔ l = [] := by
  cases l <;> simp [empty]

theorem empty_eq_false (l : List T) : empty l = false ↔ l ≠ [] := by
  cases l <;> simp [empty]

theorem step_nonempty (s : Threads T) (t : Nat) (m : Move T)
    (h1 : ∀ u, (s.pcs u).inCriticalSection = true ↔ s.mtx = some u)
    (h2 : ∀ u, (s.pcs u).usesBack = true → s._queue ≠ []) :
    ∀ u, ((s.step t m).pcs u).usesBack = true → (s.step t m)._queue ≠ [] := by
  intro u
  have h1t := h1 t
  have h2t := h2 t
  have h2u := h2 u
  have hu : (s.pcs u).usesBack = true → s.mtx = some u :=
    fun h => (h1 u).mp (usesBack_inCriticalSection _ h)
  cases hpc : s.pcs t <;> cases m <;> simp only [Threads.step, hpc] <;> try exact h2u
  all_goals
    rw [hpc] at h1t h2t
    simp only [Pc.inCriticalSection, Bool.false_eq_true, false_iff, true_iff] at h1t
    by_cases hut : u = t
    · subst hut
      (repeat' split) <;>
        simp_all [goto_pcs, goto_mtx, goto_queue, Pc.usesBack, empty_eq_true, empty_eq_false,
          push_back]
    · have hut' : ¬ t = u := fun e => hut e.symm
      (repeat' split) <;>
        simp_all [goto_pcs, goto_mtx, goto_queue, Pc.usesBack, empty_eq_true, empty_eq_false,
          push_back] <;>
        split_ifs <;> simp_all [Pc.usesBack]

theorem step_defined (s : Threads T) (t : Nat) (m : Move T)
    (h2 : ∀ u, (s.pcs u).usesBack = true → s._queue ≠ [])
    (h3 : ∀ u, s.pcs u ≠ Pc.undefinedBehaviour) :
    ∀ u, (s.step t m).pcs u ≠ Pc.undefinedBehaviour := by
  intro u
  have h2t := h2 t
  have h3u := h3 u
  cases hpc : s.pcs t <;> cases m <;> simp only [Threads.step, hpc] <;> try exact h3u
  all_goals
    rw [hpc] at h2t
    (repeat' split) <;>
      first
      | exact h3u
      | (simp only [goto_pcs]
         split_ifs <;> simp_all [Pc.usesBack, back_eq_none, pop_back_eq_none])

theorem exec_inv (s : Threads T) (sched : List (Nat × Move T))
    (h1 : ∀ u, (s.pcs u).inCriticalSection = true ↔ s.mtx = some u)
    (h2 : ∀ u, (s.pcs u).usesBack = true → s._queue ≠ [])
    (h3 : ∀ u, s.pcs u ≠ Pc.undefinedBehaviour) :
    (∀ u, ((s.exec sched).pcs u).inCriticalSection = true ↔ (s.exec sched).mtx = some u)
    ∧ (∀ u, ((s.exec sched).pcs u).usesBack = true → (s.exec sched)._queue ≠ [])
    ∧ (∀ u, (s.exec sched).pcs u ≠ Pc.undefinedBehaviour) := by
  induction sched generalizing s with
  | nil => exact ⟨h1, h2, h3⟩
  | cons a sched ih =>
    obtain ⟨t, m⟩ := a
    exact ih (s.step t m) (step_inv s t m h1) (step_nonempty s t m h1 h2)
      (step_defined s t m h2 h3)

theorem init_inv (q : List T) (sched : List (Nat × Move T)) :
    (∀ u, (((Threads.init q).exec sched).pcs u).inCriticalSection = true
        ↔ ((Threads.init q).exec sched).mtx = some u)
    ∧ (∀ u, (((Threads.init q).exec sched).pcs u).usesBack = true
        → ((Threads.init q).exec sched)._queue ≠ [])
    ∧ (∀ u, ((Threads.init q).exec sched).pcs u ≠ Pc.undefinedBehaviour) :=
  exec_inv (Threads.init q) sched (by simp [Threads.init, Pc.inCriticalSection])
    (by simp [Threads.init, Pc.usesBack]) (by simp [Threads.init])

theorem step_queue_of_not_holder (s : Threads T) (t : Nat) (m : Move T)
    (h1 : (s.pcs t).inCriticalSection = true ↔ s.mtx = some t) :
    s.mtx = some t ∨ (s.step t m)._queue = s._queue := by
  cases hpc : s.pcs t <;> rw [hpc] at h1 <;>
    simp only [Pc.inCriticalSection, Bool.false_eq_true, false_iff, true_iff] at h1 <;>
    first
    | exact Or.inl h1
    | (right
       cases m <;> simp only [Threads.step, hpc] <;> (try split_ifs) <;> rfl)

theorem step_blind_of_not_holder (s : Threads T) (t : Nat) (m : Move T) (q : List T)
    (h1 : (s.pcs t).inCriticalSection = true ↔ s.mtx = some t) :
    s.mtx = some t
    ∨ Threads.step { s with _queue := q } t m = { s.step t m with _queue := q } := by
  cases hpc : s.pcs t <;> rw [hpc] at h1 <;>
    simp only [Pc.inCriticalSection, Bool.false_eq_true, false_iff, true_iff] at h1 <;>
    first
    | exact Or.inl h1
    | (right
       cases m <;> simp only [Threads.step, hpc] <;> (try split_ifs) <;> rfl)

theorem send_section_is_send (s : Threads T) (t : Nat) (msg : T)
    (h : s.pcs t = Pc.sendPush msg) :
    (s.step t Move.run)._queue = (MessageQueue.send { _queue := s._queue } msg)._queue
    ∧ (s.step t Move.run).pcs t = Pc.sendNotify := by
  simp [Threads.step, h, goto_pcs, goto_queue, MessageQueue.send]

theorem receive_section_is_receive (s : Threads T) (t : Nat)
    (h : s.pcs t = Pc.receiveCheck) :
    (MessageQueue.receive { _queue := s._queue } = ReceiveResult.blocked { _queue := s._queue }
      ∧ (s.step t Move.run).pcs t = Pc.receiveWaiting
      ∧ (s.step t Move.run)._queue = s._queue)
    ∨ (∃ msg rest,
        MessageQueue.receive { _queue := s._queue }
          = ReceiveResult.returned msg { _queue := rest }
        ∧ (((s.step t Move.run).step t Move.run).step t Move.run).pcs t
          = Pc.receiveReturn msg
        ∧ (((s.step t Move.run).step t Move.run).step t Move.run)._queue = rest) := by
  obtain ⟨l, mtx, pcs⟩ := s
  simp only at h
  induction l using List.reverseRecOn with
  | nil =>
    left
    simp [Threads.step, h, goto_pcs, goto_queue, receive_nil, empty]
  | append_singleton xs v _ =>
    right
    refine ⟨v, xs, receive_append_singleton xs v, ?_⟩
    have e1 : Threads.step { _queue := xs ++ [v], mtx := mtx, pcs := pcs } t Move.run
        = Threads.goto { _queue := xs ++ [v], mtx := mtx, pcs := pcs } t Pc.receiveBack := by
      simp [Threads.step, h, empty_append_singleton]
    have e2 : Threads.step
          (Threads.goto { _queue := xs ++ [v], mtx := mtx, pcs := pcs } t Pc.receiveBack)
          t Move.run
        = Threads.goto { _queue := xs ++ [v], mtx := mtx, pcs := pcs } t (Pc.receivePop v) := by
      simp [Threads.step, goto_pcs, goto_queue, back_append_singleton, Threads.goto]
    have e3 : Threads.step
          (Threads.goto { _queue := xs ++ [v], mtx := mtx, pcs := pcs } t (Pc.receivePop v))
          t Move.run
        = Threads.goto { _queue := xs, mtx := mtx, pcs := pcs } t (Pc.receiveReturn v) := by
      simp [Threads.step, goto_pcs, goto_queue, pop_back_append_singleton, Threads.goto]
    rw [e1, e2, e3]
    simp [goto_pcs, goto_queue]

theorem notify_step (s : Threads T) (t waiter : Nat)
    (h : s.pcs t = Pc.sendNotify) :
    ∃ pcs', s.step t (Move.notify waiter) = { s with pcs := pcs' } ∧ pcs' t = Pc.sendUnlock := by
  simp only [Threads.step, h]
  split
  · exact ⟨_, rfl, by simp⟩
  · exact ⟨_, rfl, by simp⟩

theorem send_runs_through (q : List T) (pcs : Nat → Pc T) (t waiter : Nat) (msg : T) :
    (Threads.exec { _queue := q, mtx := none, pcs := Function.update pcs t (Pc.sendLock msg) }
        [(t, Move.run), (t, Move.run), (t, Move.notify waiter), (t, Move.run)])._queue
      = q ++ [msg]
    ∧ (Threads.exec { _queue := q, mtx := none, pcs := Function.update pcs t (Pc.sendLock msg) }
        [(t, Move.run), (t, Move.run), (t, Move.notify waiter), (t, Move.run)]).pcs t
      = Pc.idle
    ∧ (Threads.exec { _queue := q, mtx := none, pcs := Function.update pcs t (Pc.sendLock msg) }
        [(t, Move.run), (t, Move.run), (t, Move.notify waiter), (t, Move.run)]).mtx
      = none := by
  have e1 : Threads.step { _queue := q, mtx := none, pcs := Function.update pcs t (Pc.sendLock msg) }
      t Move.run
      = { _queue := q, mtx := some t, pcs := Function.update pcs t (Pc.sendPush msg) } := by
    simp [Threads.step, Threads.goto]
  have e2 : Threads.step
      { _queue := q, mtx := some t, pcs := Function.update pcs t (Pc.sendPush msg) } t Move.run
      = { _queue := q ++ [msg], mtx := some t, pcs := Function.update pcs t Pc.sendNotify } := by
    simp [Threads.step, Threads.goto, push_back]
  simp only [Threads.exec, e1, e2]
  obtain ⟨pcs', e3, h3⟩ := notify_step
    { _queue := q ++ [msg], mtx := some t, pcs := Function.update pcs t Pc.sendNotify }
    t waiter (by simp)
  rw [e3]
  simp [Threads.step, Threads.goto, h3]

end ThreadLemmas

/-! ## Claims -/

section Claims

open TrafficLightPhase

/-- C1: values sent in the order `v1, ..., vn` to an empty queue are returned
by `n` successive calls of `receive` in the reverse order `vn, ..., v1`, and the
queue is empty afterwards; sending `red` then `green` and receiving twice gives
`green`, then `red`. -/
theorem receive_reverses_send_order :
    (∀ (T : Type) (vs : List T),
      receiveMany vs.length (sendAll ({ _queue := [] } : MessageQueue T) vs)
        = some (vs.reverse, { _queue := [] }))
    ∧ receiveMany 2 (sendAll ({ _queue := [] } : MessageQueue TrafficLightPhase) [red, green])
        = some ([green, red], { _queue := [] }) := by
  have key : ∀ (T : Type) (vs : List T),
      receiveMany vs.length (sendAll ({ _queue := [] } : MessageQueue T) vs)
        = some (vs.reverse, { _queue := [] }) := by
    intro T vs
    rw [sendAll_queue]
    exact receiveMany_append_reverse [] vs
  exact ⟨key, key TrafficLightPhase [red, green]⟩

/-- C2: `send` is a total operation (it always completes with a new queue
state); the new sequence is the old one with the value appended at the tail, it
is longer by exactly one, and every position of the old sequence holds the same
element as before.  Statement by statement: a thread that enters `send` while
the mutex is free needs four steps of its own, wherever the other threads
stand, to leave `send` with the value appended and the mutex free again; none
of these steps waits. -/
theorem send_appends_at_tail (T : Type) (q : MessageQueue T) (v : T) :
    (q.send v)._queue = q._queue ++ [v]
    ∧ (q.send v)._queue.length = q._queue.length + 1
    ∧ (∀ i : Fin q._queue.length, (q.send v)._queue[i.1]? = some (q._queue.get i))
    ∧ (q.send v)._queue[q._queue.length]? = some v
    ∧ (∀ (pcs : Nat → Pc T) (t waiter : Nat),
        (Threads.exec
            { _queue := q._queue, mtx := none, pcs := Function.update pcs t (Pc.sendLock v) }
            [(t, Move.run), (t, Move.run), (t, Move.notify waiter), (t, Move.run)])._queue
          = (q.send v)._queue
        ∧ (Threads.exec
            { _queue := q._queue, mtx := none, pcs := Function.update pcs t (Pc.sendLock v) }
            [(t, Move.run), (t, Move.run), (t, Move.notify waiter), (t, Move.run)]).pcs t
          = Pc.idle
        ∧ (Threads.exec
            { _queue := q._queue, mtx := none, pcs := Function.update pcs t (Pc.sendLock v) }
            [(t, Move.run), (t, Move.run), (t, Move.notify waiter), (t, Move.run)]).mtx
          = none) := by
  refine ⟨rfl, by simp [MessageQueue.send, push_back], ?_,
    by simp [MessageQueue.send, push_back], ?_⟩
  · intro i
    simp [MessageQueue.send, push_back, List.getElem?_append_left i.2]
  · intro pcs t waiter
    exact send_runs_through q._queue pcs t waiter v

/-- C3: `receive` on an empty queue does not return and leaves the queue as it
is (it returns once a value was sent); `back` and `pop_back` are never applied
to an empty sequence; `receive` returns exactly when the sequence is non-empty,
and stays blocked exactly when it is empty. -/
theorem receive_blocks_iff_empty (T : Type) :
    MessageQueue.receive ({ _queue := [] } : MessageQueue T)
        = ReceiveResult.blocked { _queue := [] }
    ∧ (∀ v : T, (MessageQueue.send { _queue := [] } v).receive
        = ReceiveResult.returned v { _queue := [] })
    ∧ (∀ q : MessageQueue T, q.receive ≠ ReceiveResult.undefinedBehaviour)
    ∧ (∀ q : MessageQueue T,
        (∃ msg q', q.receive = ReceiveResult.returned msg q') ↔ q._queue ≠ [])
    ∧ (∀ q : MessageQueue T, q.receive = ReceiveResult.blocked q ↔ q._queue = []) :=
  ⟨rfl, fun _ => rfl, receive_ne_undefined, receive_returned_iff, receive_blocked_iff⟩

/-- C4, as stated, fails: after `red` then `green` are sent to an empty queue,
the first `receive` returns `green`, yet `red` (sent before `green` and not
consumed) is still in the queue, and the second `receive` returns it. -/
theorem stale_value_is_kept :
    (Run.exec Run.start [QueueOp.send red, QueueOp.send green, QueueOp.receive]).received
        = [green]
    ∧ red ∈ (Run.exec Run.start
        [QueueOp.send red, QueueOp.send green, QueueOp.receive]).queue._queue
    ∧ (Run.exec Run.start
        [QueueOp.send red, QueueOp.send green, QueueOp.receive, QueueOp.receive]).received
        = [green, red] := by
  decide

/-- C4, amended: `receive` returns the value sent last among those not yet
consumed and removes only that one; the values sent before it stay in the
queue, in order, and further calls of `receive` return all of them, newest
first. -/
theorem receive_takes_latest_keeps_older (T : Type) (older : List T) (v : T) :
    MessageQueue.receive { _queue := older ++ [v] }
        = ReceiveResult.returned v { _queue := older }
    ∧ receiveMany older.length ({ _queue := older } : MessageQueue T)
        = some (older.reverse, { _queue := [] }) :=
  ⟨receive_append_singleton older v, receiveMany_append_reverse [] older⟩

/-- C5: in every run of the toggle loop from any starting state, with calls of
`receive` by waiters interleaved at will, the published phases alternate: no
two consecutive publications are equal, and the first differs from the
starting phase.  An iteration whose timer has expired turns `red` into `green`
and `green` into `red`, stores the new phase and sends it; another iteration
changes nothing.  Without calls of `receive` the queue grows by exactly the
published phases. -/
theorem published_phases_alternate :
    (∀ (s : CycleState) (acts : List Action),
      List.Chain' (fun x y => x ≠ y)
        (s.light._currentPhase :: (Sim.exec (Sim.init s) acts).published))
    ∧ (∀ (q : MessageQueue TrafficLightPhase) (start cycle_time : Int) (i : CycleInput),
        CycleState.iteration
            { light := { _currentPhase := red, _trafficMessage := q },
              start := start, cycle_time := cycle_time } i
          = if cycle_time ≤ i.now - start then
              ({ light := { _currentPhase := green, _trafficMessage := q.send green },
                 start := i.now_reset, cycle_time := i.draw }, some green)
            else
              ({ light := { _currentPhase := red, _trafficMessage := q },
                 start := start, cycle_time := cycle_time }, none))
    ∧ (∀ (q : MessageQueue TrafficLightPhase) (start cycle_time : Int) (i : CycleInput),
        CycleState.iteration
            { light := { _currentPhase := green, _trafficMessage := q },
              start := start, cycle_time := cycle_time } i
          = if cycle_time ≤ i.now - start then
              ({ light := { _currentPhase := red, _trafficMessage := q.send red },
                 start := i.now_reset, cycle_time := i.draw }, some red)
            else
              ({ light := { _currentPhase := green, _trafficMessage := q },
                 start := start, cycle_time := cycle_time }, none))
    ∧ (∀ (s : CycleState) (is : List CycleInput),
        (Sim.exec (Sim.init s) (is.map Action.iteration)).loop
            = TrafficLight.cycleThroughPhases s.light s.cycle_time s.start is
        ∧ (TrafficLight.cycleThroughPhases s.light s.cycle_time s.start is).light._trafficMessage._queue
            = s.light._trafficMessage._queue
                ++ (Sim.exec (Sim.init s) (is.map Action.iteration)).published) := by
  refine ⟨?_, ?_, ?_, ?_⟩
  · intro s acts
    exact (sim_exec_alternates s.light._currentPhase (Sim.init s) acts
      (by simp [Sim.init])).1
  · intro q start cycle_time i
    simp only [CycleState.iteration, CycleState.expired]
    split_ifs <;> simp_all
  · intro q start cycle_time i
    simp only [CycleState.iteration, CycleState.expired]
    split_ifs <;> simp_all
  · intro s is
    have h := sim_exec_iterations (Sim.init s) is s.light._trafficMessage._queue
      (by simp [Sim.init])
    have h1 : (Sim.exec (Sim.init s) (is.map Action.iteration)).loop
        = TrafficLight.cycleThroughPhases s.light s.cycle_time s.start is := h.1
    refine ⟨h1, ?_⟩
    rw [← h1]
    exact h.2

/-- C6: when the queue holds at least one `green` and nothing is sent
meanwhile, the queue is `older ++ green :: reds` with `reds` all `red`, and
`waitForGreen` returns (any bound above the number of those reds suffices): it
received the reds and then `green`, and it leaves exactly `older` in the queue.
When the queue holds no `green`, `waitForGreen` never returns, whatever the
bound: it consumes the whole queue and stays blocked on the empty queue. -/
theorem waitForGreen_stops_at_latest_green (tl : TrafficLight) :
    (green ∈ tl._trafficMessage._queue →
      ∃ older n, tl._trafficMessage._queue = older ++ green :: List.replicate n red
        ∧ ∀ fuel, n < fuel →
          TrafficLight.waitForGreen fuel tl
            = WaitResult.returned (List.replicate n red ++ [green])
                { tl with _trafficMessage := { _queue := older } })
    ∧ (green ∉ tl._trafficMessage._queue →
      (∀ fuel rcv tl', TrafficLight.waitForGreen fuel tl ≠ WaitResult.returned rcv tl')
      ∧ ∀ fuel, tl._trafficMessage._queue.length < fuel →
          TrafficLight.waitForGreen fuel tl
            = WaitResult.blocked tl._trafficMessage._queue.reverse
                { tl with _trafficMessage := { _queue := [] } }) := by
  obtain ⟨ph, ⟨l⟩⟩ := tl
  constructor
  · intro h
    obtain ⟨older, n, e⟩ := green_mem_split l h
    refine ⟨older, n, e, ?_⟩
    intro fuel hf
    simp only [e]
    exact wait_green_then_reds ph older n fuel hf
  · intro h
    have e := no_green_all_red l h
    simp only at e ⊢
    constructor
    · intro fuel rcv tl'
      rw [e]
      exact wait_all_red_never_returns ph l.length fuel rcv tl'
    · intro fuel hf
      have hb := wait_all_red_blocks ph l.length fuel hf
      rw [← e] at hb
      rw [hb, e, List.reverse_replicate, ← e]

/-- C6 at concrete queues: `[green, red, green, red]` (front to back) and
`[red, red]`. -/
theorem waitForGreen_stops_at_latest_green_witness :
    (∃ older n, [green, red, green, red] = older ++ green :: List.replicate n red
        ∧ ∀ fuel, n < fuel →
          TrafficLight.waitForGreen fuel
              { _currentPhase := red, _trafficMessage := { _queue := [green, red, green, red] } }
            = WaitResult.returned (List.replicate n red ++ [green])
                { _currentPhase := red, _trafficMessage := { _queue := older } })
    ∧ ((∀ fuel rcv tl', TrafficLight.waitForGreen fuel
              { _currentPhase := red, _trafficMessage := { _queue := [red, red] } }
            ≠ WaitResult.returned rcv tl')
      ∧ ∀ fuel, 2 < fuel →
          TrafficLight.waitForGreen fuel
              { _currentPhase := red, _trafficMessage := { _queue := [red, red] } }
            = WaitResult.blocked [red, red]
                { _currentPhase := red, _trafficMessage := { _queue := [] } }) :=
  ⟨(waitForGreen_stops_at_latest_green
      { _currentPhase := red, _trafficMessage := { _queue := [green, red, green, red] } }).1
      (by decide),
   (waitForGreen_stops_at_latest_green
      { _currentPhase := red, _trafficMessage := { _queue := [red, red] } }).2
      (by decide)⟩

/-- C7: a freshly constructed light reports `red` and its queue is empty; the
first phase its toggle loop publishes is `green` (it is published by the first
iteration whose timer has expired); at any moment no more calls of `receive`
have returned than phases were published, so that nothing is received before
the first toggle, and `waitForGreen` on the fresh light stays blocked. -/
theorem fresh_light_red_then_green :
    TrafficLight.getCurrentPhase TrafficLight.TrafficLight = red
    ∧ (TrafficLight.TrafficLight)._trafficMessage._queue = []
    ∧ (∀ (start draw : Int) (acts : List Action),
        (Sim.exec (Sim.init
            { light := TrafficLight.TrafficLight, start := start, cycle_time := draw })
            acts).published.head? = none
        ∨ (Sim.exec (Sim.init
            { light := TrafficLight.TrafficLight, start := start, cycle_time := draw })
            acts).published.head? = some green)
    ∧ (∀ (start draw : Int) (i : CycleInput),
        (Sim.exec (Sim.init
            { light := TrafficLight.TrafficLight, start := start, cycle_time := draw })
            [Action.iteration i]).published
          = if draw ≤ i.now - start then [green] else [])
    ∧ (∀ (start draw : Int) (acts : List Action),
        (Sim.exec (Sim.init
            { light := TrafficLight.TrafficLight, start := start, cycle_time := draw })
            acts).received.length
          ≤ (Sim.exec (Sim.init
            { light := TrafficLight.TrafficLight, start := start, cycle_time := draw })
            acts).published.length)
    ∧ (∀ fuel : Nat,
        TrafficLight.waitForGreen (fuel + 1) TrafficLight.TrafficLight
          = WaitResult.blocked [] TrafficLight.TrafficLight) := by
  refine ⟨rfl, rfl, ?_, ?_, ?_, ?_⟩
  · intro start draw acts
    have h := (sim_exec_alternates red (Sim.init
      { light := TrafficLight.TrafficLight, start := start, cycle_time := draw }) acts
      (by simp [Sim.init, TrafficLight.TrafficLight])).1
    cases hp : (Sim.exec (Sim.init
      { light := TrafficLight.TrafficLight, start := start, cycle_time := draw })
      acts).published with
    | nil => exact Or.inl rfl
    | cons p ps =>
      rw [hp] at h
      have hne : red ≠ p := (List.chain'_cons.mp h).1
      cases p with
      | red => exact absurd rfl hne
      | green => exact Or.inr rfl
  · intro start draw i
    simp only [Sim.exec, Sim.init, Sim.step, CycleState.iteration, CycleState.expired,
      TrafficLight.TrafficLight]
    split_ifs <;> simp_all
  · intro start draw acts
    have h := sim_exec_perm (Sim.init
      { light := TrafficLight.TrafficLight, start := start, cycle_time := draw }) acts []
      (by simp [Sim.init, TrafficLight.TrafficLight])
    have hl := h.length_eq
    rw [List.nil_append, List.length_append] at hl
    omega
  · intro fuel
    exact wait_unfold_nil fuel red

/-- C8: values are consumed exactly once.  In every run of `send` and `receive`
operations from an empty queue, the values returned by the calls of `receive`
together with the values still in the queue are, counted with multiplicity, the
values sent.  For the controller: the calls of `receive` by all waiters return
`green` at most as often as `green` was published; and when exactly one `green`
was published (a fresh light after one expired iteration), the first
`waitForGreen` returns and leaves a queue on which a second `waitForGreen`
stays blocked. -/
theorem values_consumed_exactly_once :
    (∀ (T : Type) (ops : List (QueueOp T)),
      List.Perm ((Run.exec Run.start ops).received ++ (Run.exec Run.start ops).queue._queue)
        (Run.exec Run.start ops).sent)
    ∧ (∀ (start draw : Int) (acts : List Action),
        List.count green (Sim.exec (Sim.init
            { light := TrafficLight.TrafficLight, start := start, cycle_time := draw })
            acts).received
          ≤ List.count green (Sim.exec (Sim.init
            { light := TrafficLight.TrafficLight, start := start, cycle_time := draw })
            acts).published)
    ∧ (TrafficLight.cycleThroughPhases TrafficLight.TrafficLight 4 0
          [{ now := 4, now_reset := 4, draw := 5 }]).light
        = { _currentPhase := green, _trafficMessage := { _queue := [green] } }
    ∧ (∀ fuel : Nat,
        TrafficLight.waitForGreen (fuel + 1)
            { _currentPhase := green, _trafficMessage := { _queue := [green] } }
          = WaitResult.returned [green]
              { _currentPhase := green, _trafficMessage := { _queue := [] } }
        ∧ TrafficLight.waitForGreen (fuel + 1)
            { _currentPhase := green, _trafficMessage := { _queue := [] } }
          = WaitResult.blocked []
              { _currentPhase := green, _trafficMessage := { _queue := [] } }) := by
  refine ⟨?_, ?_, by decide, ?_⟩
  · intro T ops
    simpa using run_exec_perm (Run.start : Run T) ops [] (by simp [Run.start])
  · intro start draw acts
    have h := sim_exec_perm (Sim.init
      { light := TrafficLight.TrafficLight, start := start, cycle_time := draw }) acts []
      (by simp [Sim.init, TrafficLight.TrafficLight])
    have hc := h.count_eq green
    rw [List.nil_append, List.count_append] at hc
    omega
  · intro fuel
    exact ⟨wait_green_then_reds green [] 0 (fuel + 1) (by omega), wait_unfold_nil fuel green⟩

/-- C9: mutual exclusion on the queue.  In every state that threads calling
`send` and `receive` can reach, under any schedule: a thread stands between
taking and releasing the mutex exactly when it owns the mutex, so at most one
thread does; a step of a thread that does not own the mutex leaves the
sequence unchanged and does not depend on its content, so every read and every
mutation of the sequence is made by the owner of the mutex; and `back` and
`pop_back` never meet an empty sequence. -/
theorem queue_access_only_by_lock_owner (T : Type) (q : List T)
    (sched : List (Nat × Move T)) :
    (∀ u, (((Threads.init q).exec sched).pcs u).inCriticalSection = true
        ↔ ((Threads.init q).exec sched).mtx = some u)
    ∧ (∀ t u, t = u
        ∨ (((Threads.init q).exec sched).pcs t).inCriticalSection = false
        ∨ (((Threads.init q).exec sched).pcs u).inCriticalSection = false)
    ∧ (∀ t m, ((Threads.init q).exec sched).mtx = some t
        ∨ (((Threads.init q).exec sched).step t m)._queue = ((Threads.init q).exec sched)._queue)
    ∧ (∀ t m q', ((Threads.init q).exec sched).mtx = some t
        ∨ Threads.step { (Threads.init q).exec sched with _queue := q' } t m
            = { ((Threads.init q).exec sched).step t m with _queue := q' })
    ∧ (∀ u, ((Threads.init q).exec sched).pcs u ≠ Pc.undefinedBehaviour) := by
  obtain ⟨h1, _, h3⟩ := init_inv q sched
  refine ⟨h1, ?_, fun t m => step_queue_of_not_holder _ t m (h1 t),
    fun t m q' => step_blind_of_not_holder _ t m q' (h1 t), h3⟩
  intro t u
  cases ht : (((Threads.init q).exec sched).pcs t).inCriticalSection with
  | false => exact Or.inr (Or.inl rfl)
  | true =>
    cases hu : (((Threads.init q).exec sched).pcs u).inCriticalSection with
    | false => exact Or.inr (Or.inr rfl)
    | true =>
      left
      rw [h1] at ht hu
      exact Option.some.inj (ht.symm.trans hu)

/-- C10: `waitForGreen` can return on a stale `green`.  From a fresh light, two
iterations with an expired timer and no `receive` in between leave the queue
holding `green` then `red` and the current phase `red`; `waitForGreen` then
receives `red`, then `green`, and returns while `getCurrentPhase` is `red`.
Hence a return of `waitForGreen` does not imply that the current phase is
`green`. -/
theorem waitForGreen_returns_on_stale_green :
    (TrafficLight.cycleThroughPhases TrafficLight.TrafficLight 4 0
        [{ now := 4, now_reset := 4, draw := 5 }, { now := 9, now_reset := 9, draw := 6 }]).light
      = { _currentPhase := red, _trafficMessage := { _queue := [green, red] } }
    ∧ TrafficLight.waitForGreen 2
        { _currentPhase := red, _trafficMessage := { _queue := [green, red] } }
      = WaitResult.returned [red, green]
          { _currentPhase := red, _trafficMessage := { _queue := [] } }
    ∧ TrafficLight.getCurrentPhase
        { _currentPhase := red, _trafficMessage := { _queue := [] } } = red
    ∧ ¬ (∀ (draw start : Int) (is : List CycleInput) (fuel : Nat)
          (rcv : List TrafficLightPhase) (tl : TrafficLight),
        TrafficLight.waitForGreen fuel
            (TrafficLight.cycleThroughPhases TrafficLight.TrafficLight draw start is).light
          = WaitResult.returned rcv tl →
        tl.getCurrentPhase = green) := by
  refine ⟨by decide, by decide, rfl, ?_⟩
  intro h
  have := h 4 0
    [{ now := 4, now_reset := 4, draw := 5 }, { now := 9, now_reset := 9, draw := 6 }] 2
    [red, green] { _currentPhase := red, _trafficMessage := { _queue := [] } } (by decide)
  exact absurd this (by decide)

end Claims

end TrafficSim
